import Mathlib

/-!
Shallow embedding of `src/AnimationGroup.js` (react-animation-group).

The component animates keyed children with the FLIP technique.  The
embedding models, faithfully to the source:

* geometry snapshots (`getBoundingClientRect` results) as `Rect` records
  of integers; the empty object `{}` stored for a missing node is
  `emptyRect` (all fields zero, hence falsy like `undefined`);
* the animation planner of `componentDidUpdate` (lines 115-139) as the
  pure function `planKey`;
* the stateful phases of `componentDidUpdate` (cancel sweep, real/ending
  snapshot capture with the hide/restore sequence, start-transform
  application) as explicit state-passing functions that also emit a
  trace of primitive DOM effects;
* the `transitionend` handler (lines 158-172) as `settle`;
* `render` (lines 184-238) as a pure function producing the wrapper
  element description;
* the mount sequence (constructor, `componentWillMount`,
  `componentDidMount`).

JavaScript numbers are modelled as `Int`: every claim is about exact
equalities and subtractions, never about float rounding.
-/

namespace AnimationGroup

/-- A `getBoundingClientRect` result: `left`, `top`, `width`, `height`. -/
structure Rect where
  left : Int
  top : Int
  width : Int
  height : Int
  deriving DecidableEq, Repr

/-- The empty object `{}` stored when a key has no DOM node: every field
reads as falsy (`undefined` in JS, `0` here). -/
def emptyRect : Rect := ⟨0, 0, 0, 0⟩

/-- A CSS translation `translate(dx px, dy px)`. -/
structure Translation where
  dx : Int
  dy : Int
  deriving DecidableEq, Repr

/-- The pair of keyframes computed for one key
(lines 134-137 of the source). -/
structure AnimationDescriptor where
  startTransform : Translation
  endTransform : Translation
  deriving DecidableEq, Repr

/-- `[startLeft, startTop]` of the planner (lines 122-124):
if the starting snapshot has falsy height and width the synthetic
off-stage position `(real.width * -1, real.top)` is substituted,
otherwise the starting snapshot's own corner is used. -/
def resolveStart (first real : Rect) : Int × Int :=
  if first.height = 0 ∧ first.width = 0 then (real.width * -1, real.top)
  else (first.left, first.top)

/-- `[endLeft, endTop]` of the planner (lines 126-128), symmetric to
`resolveStart` for the ending snapshot. -/
def resolveEnd (last real : Rect) : Int × Int :=
  if last.height = 0 ∧ last.width = 0 then (real.width * -1, real.top)
  else (last.left, last.top)

/-- The per-key animation planner (lines 115-139): from the starting,
real and ending snapshots, either no animation or a descriptor whose
keyframes translate by the start/end offsets relative to the real
position. -/
def planKey (first real last : Rect) : Option AnimationDescriptor :=
  let s := resolveStart first real
  let e := resolveEnd last real
  if s.1 ≠ e.1 ∨ s.2 ≠ e.2 ∨ e.1 ≠ real.left ∨ e.2 ≠ real.top then
    some ⟨⟨s.1 - real.left, s.2 - real.top⟩, ⟨e.1 - real.left, e.2 - real.top⟩⟩
  else
    none

/-- The real position's corner as a pair, for comparison with the
resolved start/end positions. -/
def realCorner (real : Rect) : Int × Int := (real.left, real.top)

/-- C1: the planner emits a descriptor iff the resolved start position,
the resolved end position and the real position are not all equal, and
the emitted keyframes translate by `(startLeft - real.left, startTop -
real.top)` and `(endLeft - real.left, endTop - real.top)`. -/
theorem C1_planner_descriptor (first real last : Rect) :
    (planKey first real last = none ↔
      (resolveStart first real = realCorner real ∧
       resolveEnd last real = realCorner real)) ∧
    (∀ d, planKey first real last = some d →
      d.startTransform =
        ⟨(resolveStart first real).1 - real.left,
         (resolveStart first real).2 - real.top⟩ ∧
      d.endTransform =
        ⟨(resolveEnd last real).1 - real.left,
         (resolveEnd last real).2 - real.top⟩) := by
  constructor
  · unfold planKey realCorner
    by_cases h : (resolveStart first real).1 ≠ (resolveEnd last real).1 ∨
        (resolveStart first real).2 ≠ (resolveEnd last real).2 ∨
        (resolveEnd last real).1 ≠ real.left ∨
        (resolveEnd last real).2 ≠ real.top
    · simp only [h, if_pos]
      constructor
      · intro hc; exact absurd hc (by simp)
      · rintro ⟨hs, he⟩
        rcases h with h | h | h | h
        · exact absurd (by rw [hs, he]) h
        · exact absurd (by rw [hs, he]) h
        · exact absurd (by rw [he]) h
        · exact absurd (by rw [he]) h
    · simp only [h, if_neg]
      push_neg at h
      obtain ⟨h1, h2, h3, h4⟩ := h
      constructor
      · intro _
        constructor
        · exact Prod.ext (by rw [h1, h3]) (by rw [h2, h4])
        · exact Prod.ext h3 h4
      · intro _; rfl
  · intro d hd
    unfold planKey at hd
    by_cases h : (resolveStart first real).1 ≠ (resolveEnd last real).1 ∨
        (resolveStart first real).2 ≠ (resolveEnd last real).2 ∨
        (resolveEnd last real).1 ≠ real.left ∨
        (resolveEnd last real).2 ≠ real.top
    · simp only [h, if_pos] at hd
      cases hd
      exact ⟨rfl, rfl⟩
    · simp only [h, if_neg] at hd
      cases hd

/-- Witness for C1 at a concrete reorder: starting `(0,0)`, real and
ending `(40,0)`, size `10×10`. -/
theorem C1_planner_descriptor_witness :
    AnimationDescriptor.startTransform ⟨⟨-40, 0⟩, ⟨0, 0⟩⟩ = ⟨-40, 0⟩ ∧
    AnimationDescriptor.endTransform ⟨⟨-40, 0⟩, ⟨0, 0⟩⟩ = ⟨0, 0⟩ := by
  have h := (C1_planner_descriptor ⟨0, 0, 10, 10⟩ ⟨40, 0, 10, 10⟩
    ⟨40, 0, 10, 10⟩).2 ⟨⟨-40, 0⟩, ⟨0, 0⟩⟩ (by decide)
  exact ⟨h.1, h.2⟩

/-- C2 counterexample: for a zero-sized starting snapshot the code
substitutes `left = real.width * -1`, not `real.left - real.width` as
the claim states.  With `real = ⟨100, 7, 50, 20⟩` the substituted
position is `(-50, 7)` while the claim predicts `(50, 7)`, and the
resulting descriptor's start transform is `(-150, 0)` while the claim
predicts `(-50, 0)`. -/
theorem C2_offstage_counterexample :
    resolveStart ⟨5, 5, 0, 0⟩ ⟨100, 7, 50, 20⟩ = (-50, 7) ∧
    resolveStart ⟨5, 5, 0, 0⟩ ⟨100, 7, 50, 20⟩ ≠ (100 - 50, 7) ∧
    (planKey ⟨5, 5, 0, 0⟩ ⟨100, 7, 50, 20⟩ ⟨100, 7, 50, 20⟩).map
      AnimationDescriptor.startTransform = some ⟨-150, 0⟩ ∧
    (planKey ⟨5, 5, 0, 0⟩ ⟨100, 7, 50, 20⟩ ⟨100, 7, 50, 20⟩).map
      AnimationDescriptor.startTransform ≠ some ⟨100 - 50 - 100, 0⟩ := by
  decide

/-- C2 amended: for a zero-width zero-height starting (resp. ending)
snapshot the planner substitutes the synthetic position
`(real.width * -1, real.top)` — one real-width to the left of the
x-origin, at the real top — and uses it as the start (resp. end)
position of the descriptor computation. -/
theorem C2_offstage_substitution (first last real : Rect) :
    ((first.height = 0 ∧ first.width = 0) →
      resolveStart first real = (real.width * -1, real.top)) ∧
    ((last.height = 0 ∧ last.width = 0) →
      resolveEnd last real = (real.width * -1, real.top)) ∧
    (∀ d, (first.height = 0 ∧ first.width = 0) →
      planKey first real last = some d →
      d.startTransform = ⟨real.width * -1 - real.left, 0⟩) ∧
    (∀ d, (last.height = 0 ∧ last.width = 0) →
      planKey first real last = some d →
      d.endTransform = ⟨real.width * -1 - real.left, 0⟩) := by
  refine ⟨fun h => ?_, fun h => ?_, fun d h hd => ?_, fun d h hd => ?_⟩
  · unfold resolveStart; simp [h]
  · unfold resolveEnd; simp [h]
  · have hs : resolveStart first real = (real.width * -1, real.top) := by
      unfold resolveStart; simp [h]
    have := ((C1_planner_descriptor first real last).2 d hd).1
    rw [this, hs]
    simp
  · have he : resolveEnd last real = (real.width * -1, real.top) := by
      unfold resolveEnd; simp [h]
    have := ((C1_planner_descriptor first real last).2 d hd).2
    rw [this, he]
    simp

/-- Witness for the amended C2 at an entering child: starting snapshot
zero-sized, real `⟨30, 4, 10, 10⟩`. -/
theorem C2_offstage_substitution_witness :
    resolveStart ⟨0, 0, 0, 0⟩ ⟨30, 4, 10, 10⟩ = ((10 : Int) * -1, 4) ∧
    AnimationDescriptor.startTransform ⟨⟨-40, 0⟩, ⟨0, 0⟩⟩ =
      ⟨(10 : Int) * -1 - 30, 0⟩ := by
  have h := C2_offstage_substitution ⟨0, 0, 0, 0⟩ ⟨30, 4, 10, 10⟩
    ⟨30, 4, 10, 10⟩
  refine ⟨h.1 (by decide), ?_⟩
  have h3 := h.2.2.1 ⟨⟨-40, 0⟩, ⟨0, 0⟩⟩ (by decide) (by decide)
  exact h3

/-- C5: a key whose starting, real and ending snapshots are the same
non-zero-sized geometry gets no descriptor. -/
theorem C5_unchanged_geometry_no_descriptor (r : Rect)
    (h : ¬(r.height = 0 ∧ r.width = 0)) :
    planKey r r r = none := by
  unfold planKey resolveStart resolveEnd
  simp [h]

/-- Witness for C5 at the concrete rect `⟨3, 4, 10, 20⟩`. -/
theorem C5_unchanged_geometry_no_descriptor_witness :
    planKey ⟨3, 4, 10, 20⟩ ⟨3, 4, 10, 20⟩ ⟨3, 4, 10, 20⟩ = none :=
  C5_unchanged_geometry_no_descriptor ⟨3, 4, 10, 20⟩ (by decide)

/-- The inline style record of one DOM node; the component only ever
touches these three properties. -/
structure Styles where
  transform : String
  transition : String
  display : String
  deriving DecidableEq, Repr

/-- One primitive observable effect of the component on its
collaborators: a cancel invocation, an inline-style write, or the
forced `setState` of the children mapping. -/
inductive Effect where
  | cancelInvoked : String → Effect
  | styleTransform : String → String → Effect
  | styleTransition : String → String → Effect
  | styleDisplay : String → String → Effect
  | setStateChildren : List String → Effect
  deriving DecidableEq, Repr

/-- The per-instance mutable fields of `AnimationGroup`:
`this.children` (merged mapping keys; `undefined` before the first
props update is modelled as the empty list, since `for..in` over
`undefined` iterates zero times), `this.leavingKeys`,
`this.animations` (keys whose cancel closure is registered),
`this.domNodes` (whether a node is resolved for a key), the three
snapshot mappings, and the styles of the nodes (indexed by key). -/
structure AGState where
  children : List String
  leavingKeys : List String
  animations : List String
  domNodes : String → Bool
  styles : String → Styles
  starting : String → Option Rect
  real : String → Option Rect
  ending : String → Option Rect

/-- The external collaborators of an update cycle: `resolveNode` is
`ReactDom.findDOMNode(this.childRefs[key])` truthiness, and `layout`
is `getBoundingClientRect` as a function of which keys are currently
hidden (`display: none`). -/
structure Env where
  resolveNode : String → Bool
  layout : List String → String → Rect

/-- Write the `display` property of one node's style. -/
def setDisplay (s : String → Styles) (k : String) (v : String) :
    String → Styles :=
  fun k' => if k' = k then { s k' with display := v } else s k'

/-- Write the `transform` property of one node's style. -/
def setTransformStyle (s : String → Styles) (k : String) (v : String) :
    String → Styles :=
  fun k' => if k' = k then { s k' with transform := v } else s k'

/-- Write the `transition` property of one node's style. -/
def setTransitionStyle (s : String → Styles) (k : String) (v : String) :
    String → Styles :=
  fun k' => if k' = k then { s k' with transition := v } else s k'

/-- The hide loop (lines 91-98): for each leaving key with a node,
record its current `display` value and set `display` to `"none"`.
Returns the styles after hiding and the recorded `originalDisplays`
association list, in recording order. -/
def hidePhase (s : String → Styles) :
    List String → (String → Styles) × List (String × String)
  | [] => (s, [])
  | k :: ks =>
    ((hidePhase (setDisplay s k "none") ks).1,
     (k, (s k).display) :: (hidePhase (setDisplay s k "none") ks).2)

/-- The style writes emitted by the hide loop, in order. -/
def hideTrace (l : List String) : List Effect :=
  l.map (fun k => Effect.styleDisplay k "none")

/-- The restore loop (lines 111-113): write each recorded original
`display` value back, in recording order. -/
def restoreStyles (s : String → Styles) :
    List (String × String) → String → Styles
  | [] => s
  | p :: ps => restoreStyles (setDisplay s p.1 p.2) ps

/-- The style writes emitted by the restore loop, in order. -/
def restoreTrace (o : List (String × String)) : List Effect :=
  o.map (fun p => Effect.styleDisplay p.1 p.2)

/-- The keys actually hidden: leaving keys whose node resolved
(the `if (domNode)` guard at line 94). -/
def hiddenKeysOf (st : AGState) : List String :=
  st.leavingKeys.filter st.domNodes

/-- `this.leavingKeys` as computed in `componentWillReceiveProps`
(lines 53-59): keys of the previous mapping with a truthy entry that
are absent from the next mapping.  A previous entry is `(key,
truthiness)`. -/
def leavingKeysOf (prevKeys : List (String × Bool))
    (nextKeys : List String) : List String :=
  (prevKeys.filter
    (fun p => p.2 && !(decide (p.1 ∈ nextKeys)))).map Prod.fst

/-- The hide / capture-ending / restore sequence of
`componentDidUpdate` (lines 89-113): hide every leaving key's node,
capture the ending snapshot for every key of the merged mapping
(from `layout` with the hidden set in effect), then restore the
recorded display values. -/
def captureEndingPhase (env : Env) (st : AGState) : AGState × List Effect :=
  let hidden := hiddenKeysOf st
  let h := hidePhase st.styles hidden
  let ending : String → Option Rect := fun k =>
    if k ∈ st.children then
      some (if st.domNodes k then env.layout hidden k else emptyRect)
    else none
  ({ st with styles := restoreStyles h.1 h.2, ending := ending },
   hideTrace hidden ++ restoreTrace h.2)

theorem hidePhase_keys (s : String → Styles) (l : List String) :
    ((hidePhase s l).2).map Prod.fst = l := by
  induction l generalizing s with
  | nil => rfl
  | cons k ks ih => simp [hidePhase, ih]

theorem hidePhase_preserve (s : String → Styles) (l : List String)
    (k : String) (hk : k ∉ l) : (hidePhase s l).1 k = s k := by
  induction l generalizing s with
  | nil => rfl
  | cons a as ih =>
    have h1 : k ∉ as := fun h => hk (List.mem_cons_of_mem _ h)
    have h2 : k ≠ a := fun h => hk (h ▸ List.mem_cons_self a as)
    simp only [hidePhase]
    rw [ih _ h1]
    unfold setDisplay
    simp [h2]

theorem restoreStyles_preserve (o : List (String × String))
    (s : String → Styles) (k : String) (hk : k ∉ o.map Prod.fst) :
    restoreStyles s o k = s k := by
  induction o generalizing s with
  | nil => rfl
  | cons p ps ih =>
    have h1 : k ∉ ps.map Prod.fst := fun h =>
      hk (List.mem_cons_of_mem _ h)
    have h2 : k ≠ p.1 := fun h =>
      hk (h ▸ List.mem_cons_self p.1 (ps.map Prod.fst))
    simp only [restoreStyles]
    rw [ih _ h1]
    unfold setDisplay
    simp [h2]

theorem restoreStyles_congr (o : List (String × String))
    (s₁ s₂ : String → Styles) (k : String) (h : s₁ k = s₂ k) :
    restoreStyles s₁ o k = restoreStyles s₂ o k := by
  induction o generalizing s₁ s₂ with
  | nil => exact h
  | cons p ps ih =>
    simp only [restoreStyles]
    refine ih _ _ ?_
    unfold setDisplay
    by_cases hk : k = p.1
    · subst hk; simp [h]
    · simp [hk, h]

/-- After hiding a duplicate-free list of keys and restoring the
recorded display values, every node's full style record is exactly
what it was before. -/
theorem hide_restore_styles (l : List String) (s : String → Styles)
    (hnd : l.Nodup) (k : String) :
    restoreStyles (hidePhase s l).1 (hidePhase s l).2 k = s k := by
  induction l generalizing s with
  | nil => rfl
  | cons a as ih =>
    obtain ⟨ha, hnd'⟩ := List.nodup_cons.mp hnd
    simp only [hidePhase, restoreStyles]
    by_cases hk : k = a
    · subst hk
      rw [restoreStyles_preserve _ _ _ (by rw [hidePhase_keys]; exact ha)]
      have hX := hidePhase_preserve (setDisplay s k "none") as k ha
      simp [setDisplay, hX]
    · have hbase : (setDisplay (hidePhase (setDisplay s a "none") as).1 a
          (s a).display) k = (hidePhase (setDisplay s a "none") as).1 k := by
        unfold setDisplay
        simp [hk]
      rw [restoreStyles_congr _ _ _ k hbase, ih _ hnd']
      unfold setDisplay
      simp [hk]

theorem mem_leavingKeysOf_not_next (prevKeys : List (String × Bool))
    (nextKeys : List String) (k : String)
    (h : k ∈ leavingKeysOf prevKeys nextKeys) : k ∉ nextKeys := by
  unfold leavingKeysOf at h
  simp only [List.mem_map, List.mem_filter, Bool.and_eq_true,
    Bool.not_eq_true', decide_eq_false_iff_not] at h
  obtain ⟨p, ⟨-, hp⟩, hpk⟩ := h
  subst hpk
  exact hp.2

/-- C6: during the ending-snapshot capture, (1) every node's style is
restored exactly afterwards, (2) `display` writes target only leaving
keys with a resolved node, (3) no key of the next mapping is touched,
(4) the sequence performs display writes only (no transform or
transition or other effect), and (5) the ending geometry is captured
for every key of the merged mapping, with exactly the leaving keys'
nodes hidden. -/
theorem C6_hide_capture_restore (env : Env) (st : AGState)
    (prevKeys : List (String × Bool)) (nextKeys : List String)
    (hnd : st.leavingKeys.Nodup)
    (hlv : st.leavingKeys = leavingKeysOf prevKeys nextKeys) :
    (∀ k, (captureEndingPhase env st).1.styles k = st.styles k) ∧
    (∀ k v, Effect.styleDisplay k v ∈ (captureEndingPhase env st).2 →
      k ∈ st.leavingKeys ∧ st.domNodes k = true) ∧
    (∀ k ∈ nextKeys, ∀ v,
      Effect.styleDisplay k v ∉ (captureEndingPhase env st).2) ∧
    (∀ e ∈ (captureEndingPhase env st).2, ∃ k v,
      e = Effect.styleDisplay k v) ∧
    (∀ k ∈ st.children, (captureEndingPhase env st).1.ending k =
      some (if st.domNodes k then env.layout (hiddenKeysOf st) k
            else emptyRect)) := by
  have hmem : ∀ k v, Effect.styleDisplay k v ∈ (captureEndingPhase env st).2 →
      k ∈ hiddenKeysOf st := by
    intro k v h
    unfold captureEndingPhase at h
    simp only [List.mem_append, hideTrace, restoreTrace, List.mem_map] at h
    rcases h with ⟨a, ha, hak⟩ | ⟨p, hp, hpk⟩
    · cases hak; exact ha
    · cases hpk
      have := hidePhase_keys st.styles (hiddenKeysOf st)
      have hp1 : p.1 ∈ ((hidePhase st.styles (hiddenKeysOf st)).2).map
          Prod.fst := List.mem_map_of_mem Prod.fst hp
      rw [this] at hp1
      exact hp1
  refine ⟨?_, ?_, ?_, ?_, ?_⟩
  · intro k
    unfold captureEndingPhase
    exact hide_restore_styles (hiddenKeysOf st) st.styles
      (hnd.filter st.domNodes) k
  · intro k v h
    have := hmem k v h
    unfold hiddenKeysOf at this
    have := List.mem_filter.mp this
    exact ⟨this.1, this.2⟩
  · intro k hknext v h
    have hk := hmem k v h
    unfold hiddenKeysOf at hk
    have hk' := (List.mem_filter.mp hk).1
    rw [hlv] at hk'
    exact mem_leavingKeysOf_not_next prevKeys nextKeys k hk' hknext
  · intro e he
    unfold captureEndingPhase at he
    simp only [List.mem_append, hideTrace, restoreTrace, List.mem_map] at he
    rcases he with ⟨a, -, hak⟩ | ⟨p, -, hpk⟩
    · exact ⟨a, "none", hak.symm⟩
    · exact ⟨p.1, p.2, hpk.symm⟩
  · intro k hk
    unfold captureEndingPhase
    simp [hk]

/-- Witness for C6: one leaving key `"b"` (prev `a,b`, next `a`),
with both nodes resolved; evaluated at keys `"a"` and `"b"`. -/
theorem C6_hide_capture_restore_witness :
    ((captureEndingPhase ⟨fun _ => true, fun _ _ => emptyRect⟩
        ⟨["a", "b"], ["b"], [], fun _ => true,
         fun _ => ⟨"", "", "block"⟩, fun _ => none, fun _ => none,
         fun _ => none⟩).1.styles "b" = ⟨"", "", "block"⟩) ∧
    (Effect.styleDisplay "a" "none" ∉
      (captureEndingPhase ⟨fun _ => true, fun _ _ => emptyRect⟩
        ⟨["a", "b"], ["b"], [], fun _ => true,
         fun _ => ⟨"", "", "block"⟩, fun _ => none, fun _ => none,
         fun _ => none⟩).2) := by
  have h := C6_hide_capture_restore ⟨fun _ => true, fun _ _ => emptyRect⟩
    ⟨["a", "b"], ["b"], [], fun _ => true,
     fun _ => ⟨"", "", "block"⟩, fun _ => none, fun _ => none,
     fun _ => none⟩
    [("a", true), ("b", true)] ["a"] (by decide) (by decide)
  exact ⟨h.1 "b", h.2.2.1 "a" (by decide) "none"⟩

/-- One cancel closure (lines 143-147): clear the node's `transition`
and `transform` styles and delete the key from the registry. -/
def cancelOne (st : AGState) (k : String) : AGState × List Effect :=
  ({ st with
      styles := setTransformStyle (setTransitionStyle st.styles k "") k "",
      animations := st.animations.erase k },
   [Effect.cancelInvoked k, Effect.styleTransition k "",
    Effect.styleTransform k ""])

/-- `for (let key in this.animations) this.animations[key]()` (line 78,
also line 168): invoke the registered cancel of each listed key in
order. -/
def cancelSweep (st : AGState) : List String → AGState × List Effect
  | [] => (st, [])
  | k :: ks =>
    ((cancelSweep (cancelOne st k).1 ks).1,
     (cancelOne st k).2 ++ (cancelSweep (cancelOne st k).1 ks).2)

/-- The CSS text of a translation keyframe (lines 135-136). -/
def transformValue (t : Translation) : String :=
  "translate(" ++ toString t.dx ++ "px, " ++ toString t.dy ++ "px)"

/-- Lines 142-149: for each planned key, register a fresh cancel
closure and write the start transform to the node, in order. -/
def applyStartPhase (st : AGState) :
    List (String × AnimationDescriptor) → AGState × List Effect
  | [] => (st, [])
  | p :: ps =>
    ((applyStartPhase
        { st with
          animations := st.animations ++ [p.1],
          styles := setTransformStyle st.styles p.1
            (transformValue p.2.startTransform) } ps).1,
     Effect.styleTransform p.1 (transformValue p.2.startTransform) ::
       (applyStartPhase
        { st with
          animations := st.animations ++ [p.1],
          styles := setTransformStyle st.styles p.1
            (transformValue p.2.startTransform) } ps).2)

/-- `updateDomNodes` (lines 178-182): re-resolve the node of every key
of the merged mapping; other entries keep their previous value. -/
def refreshedNodes (env : Env) (st : AGState) : String → Bool :=
  fun k => if k ∈ st.children then env.resolveNode k else st.domNodes k

/-- The real-position snapshot (lines 81-87): for every key of the
merged mapping, the node's rect with nothing hidden, or `{}` when the
key has no node. -/
def realPositionsOf (env : Env) (st : AGState) : String → Option Rect :=
  fun k =>
    if k ∈ st.children then
      some (if refreshedNodes env st k then env.layout [] k else emptyRect)
    else none

/-- Reading a snapshot mapping at a key: an absent entry behaves as the
empty object (all fields falsy). -/
def getRect (o : Option Rect) : Rect := o.getD emptyRect

/-- The planning loop (lines 115-139) over the merged mapping, reading
the three snapshot mappings of the state. -/
def planPhase (st : AGState) : List (String × AnimationDescriptor) :=
  st.children.filterMap (fun k =>
    (planKey (getRect (st.starting k)) (getRect (st.real k))
      (getRect (st.ending k))).map (fun d => (k, d)))

/-- State and trace after `updateDomNodes` plus the cancel sweep of
lines 77-78. -/
def updCancelState (env : Env) (st : AGState) : AGState × List Effect :=
  cancelSweep { st with domNodes := refreshedNodes env st } st.animations

/-- State and trace additionally after the real-position snapshot and
the hide / capture-ending / restore sequence (lines 81-113). -/
def updCaptured (env : Env) (st : AGState) : AGState × List Effect :=
  captureEndingPhase env
    { (updCancelState env st).1 with real := realPositionsOf env st }

/-- The outcome of the synchronous part of `componentDidUpdate`. -/
structure UpdateResult where
  state : AGState
  planned : List (String × AnimationDescriptor)
  trace : List Effect

/-- The synchronous body of `componentDidUpdate` (lines 74-149):
the `prevProps === this.props` guard, node refresh, cancel sweep,
the three-snapshot capture, planning, and the start-transform
application.  `sameProps` is the reference identity of `prevProps`
and `this.props`. -/
def didUpdate (env : Env) (sameProps : Bool) (st : AGState) :
    UpdateResult :=
  match sameProps with
  | true => ⟨st, [], []⟩
  | false =>
    ⟨(applyStartPhase (updCaptured env st).1
        (planPhase (updCaptured env st).1)).1,
     planPhase (updCaptured env st).1,
     (updCancelState env st).2 ++ (updCaptured env st).2 ++
       (applyStartPhase (updCaptured env st).1
         (planPhase (updCaptured env st).1)).2⟩

/-- `b` occurs strictly after the first occurrence of `a` in `l`. -/
def occursBefore {α : Type} [DecidableEq α] (a b : α) (l : List α) :
    Prop :=
  b ∈ (l.dropWhile (fun x => !(decide (x = a)))).drop 1

instance {α : Type} [DecidableEq α] (a b : α) (l : List α) :
    Decidable (occursBefore a b l) := by
  unfold occursBefore
  infer_instance

theorem occursBefore_append {α : Type} [DecidableEq α] (a b : α)
    (l1 l2 : List α) (ha : a ∈ l1) (hb : b ∈ l2) :
    occursBefore a b (l1 ++ l2) := by
  induction l1 with
  | nil => cases ha
  | cons x xs ih =>
    unfold occursBefore
    by_cases hxa : x = a
    · subst hxa
      simp [List.dropWhile, List.mem_append, hb]
    · rcases List.mem_cons.mp ha with hx | hx
      · exact absurd hx.symm hxa
      · simp only [List.cons_append, List.dropWhile]
        rw [show (!(decide (x = a))) = true by simp [hxa]]
        exact ih hx

theorem cancelSweep_trace_mem (st : AGState) (ks : List String)
    (k : String) (hk : k ∈ ks) :
    Effect.cancelInvoked k ∈ (cancelSweep st ks).2 := by
  induction ks generalizing st with
  | nil => cases hk
  | cons a as ih =>
    simp only [cancelSweep, List.mem_append]
    rcases List.mem_cons.mp hk with h | h
    · subst h
      exact Or.inl (by simp [cancelOne])
    · exact Or.inr (ih _ h)

theorem applyStartPhase_trace_mem (st : AGState)
    (l : List (String × AnimationDescriptor))
    (p : String × AnimationDescriptor) (hp : p ∈ l) :
    Effect.styleTransform p.1 (transformValue p.2.startTransform) ∈
      (applyStartPhase st l).2 := by
  induction l generalizing st with
  | nil => cases hp
  | cons q qs ih =>
    simp only [applyStartPhase, List.mem_cons]
    rcases List.mem_cons.mp hp with h | h
    · subst h
      exact Or.inl rfl
    · exact Or.inr (ih _ h)

/-- A concrete state with a still-registered animation for key `"a"`
(its cancel from the previous cycle is in the registry) at the moment
a new props update cycle reaches `componentDidUpdate`. -/
def interruptedState : AGState :=
  { children := ["a"], leavingKeys := [], animations := ["a"],
    domNodes := fun _ => true, styles := fun _ => ⟨"", "", ""⟩,
    starting := fun k => if k = "a" then some ⟨0, 0, 10, 10⟩ else none,
    real := fun _ => none, ending := fun _ => none }

/-- Concrete collaborators for `interruptedState`: the node resolves
and now sits at `(50, 0)`. -/
def interruptedEnv : Env :=
  ⟨fun _ => true, fun _ k => if k = "a" then ⟨50, 0, 10, 10⟩ else emptyRect⟩

/-- C3 counterexample: at a concrete interrupted cycle the new update
DOES invoke the previously registered cancel of key `"a"` (line 78)
before overwriting its transform style, contrary to the claim. -/
theorem C3_no_cancel_counterexample :
    "a" ∈ interruptedState.animations ∧
    (didUpdate interruptedEnv false interruptedState).planned =
      [("a", ⟨⟨-50, 0⟩, ⟨0, 0⟩⟩)] ∧
    occursBefore (Effect.cancelInvoked "a")
      (Effect.styleTransform "a" (transformValue ⟨-50, 0⟩))
      (didUpdate interruptedEnv false interruptedState).trace := by
  decide

/-- C3 amended: when a new update cycle begins for a key whose previous
animation is still registered, the cycle invokes the registered cancel
(during the registry sweep at the start of the post-update pass) before
it overwrites the key's transform style with the new start transform. -/
theorem C3_cancel_before_overwrite (env : Env) (st : AGState)
    (k : String) (d : AnimationDescriptor) (hk : k ∈ st.animations)
    (hd : (k, d) ∈ (didUpdate env false st).planned) :
    occursBefore (Effect.cancelInvoked k)
      (Effect.styleTransform k (transformValue d.startTransform))
      (didUpdate env false st).trace := by
  have h1 : Effect.cancelInvoked k ∈ (updCancelState env st).2 :=
    cancelSweep_trace_mem _ _ _ hk
  have h2 := applyStartPhase_trace_mem (updCaptured env st).1
    (planPhase (updCaptured env st).1) (k, d) hd
  show occursBefore _ _ ((updCancelState env st).2 ++
    (updCaptured env st).2 ++ _)
  rw [List.append_assoc]
  exact occursBefore_append _ _ _ _ h1 (List.mem_append_right _ h2)

/-- Witness for the amended C3 at the concrete interrupted cycle. -/
theorem C3_cancel_before_overwrite_witness :
    occursBefore (Effect.cancelInvoked "a")
      (Effect.styleTransform "a"
        (transformValue
          (AnimationDescriptor.startTransform ⟨⟨-50, 0⟩, ⟨0, 0⟩⟩)))
      (didUpdate interruptedEnv false interruptedState).trace :=
  C3_cancel_before_overwrite interruptedEnv interruptedState "a"
    ⟨⟨-50, 0⟩, ⟨0, 0⟩⟩ (by decide) (by decide)

/-- The head of the `transitionend` handler (line 159): invoke the
currently registered cancel for the key, if any. -/
def settleCancel (st : AGState) (k : String) : AGState × List Effect :=
  if k ∈ st.animations then cancelOne st k else (st, [])

/-- Lines 161-166: purge the child entry, node reference, snapshots
and leaving flag of a settling leaving key. -/
def purgeKey (st : AGState) (k : String) : AGState :=
  { st with
    children := st.children.erase k,
    leavingKeys := st.leavingKeys.erase k,
    domNodes := fun k' => if k' = k then false else st.domNodes k',
    starting := fun k' => if k' = k then none else st.starting k',
    ending := fun k' => if k' = k then none else st.ending k' }

/-- The `transitionend` handler of one key (lines 158-172): cancel the
key's registered animation, and if the key is leaving, purge it; when
it was the last outstanding leaving key, force-cancel every remaining
animation and `setState` the children mapping. -/
def settle (st : AGState) (k : String) : AGState × List Effect :=
  if k ∈ (settleCancel st k).1.leavingKeys then
    if (purgeKey (settleCancel st k).1 k).leavingKeys = [] then
      ((cancelSweep (purgeKey (settleCancel st k).1 k)
          (purgeKey (settleCancel st k).1 k).animations).1,
       (settleCancel st k).2 ++
         (cancelSweep (purgeKey (settleCancel st k).1 k)
           (purgeKey (settleCancel st k).1 k).animations).2 ++
         [Effect.setStateChildren
           (cancelSweep (purgeKey (settleCancel st k).1 k)
             (purgeKey (settleCancel st k).1 k).animations).1.children])
    else (purgeKey (settleCancel st k).1 k, (settleCancel st k).2)
  else ((settleCancel st k).1, (settleCancel st k).2)

/-- Firing the `transitionend` handlers of a list of keys in order. -/
def settleAll (st : AGState) : List String → AGState × List Effect
  | [] => (st, [])
  | k :: ks =>
    ((settleAll (settle st k).1 ks).1,
     (settle st k).2 ++ (settleAll (settle st k).1 ks).2)

/-- Recognize the forced structural re-render effect. -/
def isSetState : Effect → Bool
  | Effect.setStateChildren _ => true
  | _ => false

/-- Number of forced structural re-renders in a trace. -/
def countSetState (tr : List Effect) : Nat := tr.countP isSetState

theorem countSetState_append (t1 t2 : List Effect) :
    countSetState (t1 ++ t2) = countSetState t1 + countSetState t2 :=
  List.countP_append _ _ _

theorem cancelSweep_children (ks : List String) : ∀ st : AGState,
    (cancelSweep st ks).1.children = st.children := by
  induction ks with
  | nil => intro st; rfl
  | cons a as ih => intro st; simp [cancelSweep, cancelOne, ih]

theorem cancelSweep_leaving (ks : List String) : ∀ st : AGState,
    (cancelSweep st ks).1.leavingKeys = st.leavingKeys := by
  induction ks with
  | nil => intro st; rfl
  | cons a as ih => intro st; simp [cancelSweep, cancelOne, ih]

theorem cancelSweep_self_empties (ks : List String) : ∀ st : AGState,
    st.animations = ks → (cancelSweep st ks).1.animations = [] := by
  induction ks with
  | nil => intro st h; exact h
  | cons a as ih =>
    intro st h
    simp only [cancelSweep]
    exact ih _ (by simp [cancelOne, h, List.erase_cons_head])

theorem countSetState_cancelSweep (ks : List String) : ∀ st : AGState,
    countSetState (cancelSweep st ks).2 = 0 := by
  induction ks with
  | nil => intro st; rfl
  | cons a as ih =>
    intro st
    simp only [cancelSweep, countSetState_append, ih]
    rfl

theorem settleCancel_children (st : AGState) (k : String) :
    (settleCancel st k).1.children = st.children := by
  unfold settleCancel
  split <;> rfl

theorem settleCancel_leaving (st : AGState) (k : String) :
    (settleCancel st k).1.leavingKeys = st.leavingKeys := by
  unfold settleCancel
  split <;> rfl

theorem settleCancel_animations (st : AGState) (k : String) :
    (settleCancel st k).1.animations = st.animations.erase k := by
  unfold settleCancel
  split
  · rfl
  · rename_i h
    exact (List.erase_of_not_mem h).symm

theorem settleCancel_count (st : AGState) (k : String) :
    countSetState (settleCancel st k).2 = 0 := by
  unfold settleCancel
  split <;> rfl

theorem settleCancel_mem (st : AGState) (k : String)
    (h : k ∈ st.animations) :
    Effect.cancelInvoked k ∈ (settleCancel st k).2 := by
  unfold settleCancel
  rw [if_pos h]
  simp [cancelOne]

theorem settle_not_last (st : AGState) (k : String)
    (hk : k ∈ st.leavingKeys) (hne : st.leavingKeys.erase k ≠ []) :
    settle st k =
      (purgeKey (settleCancel st k).1 k, (settleCancel st k).2) := by
  unfold settle
  rw [if_pos (by rw [settleCancel_leaving]; exact hk),
      if_neg (by simp only [purgeKey, settleCancel_leaving]; exact hne)]

theorem settle_last (st : AGState) (k : String)
    (hk : k ∈ st.leavingKeys) (he : st.leavingKeys.erase k = []) :
    settle st k =
      ((cancelSweep (purgeKey (settleCancel st k).1 k)
          (purgeKey (settleCancel st k).1 k).animations).1,
       (settleCancel st k).2 ++
         (cancelSweep (purgeKey (settleCancel st k).1 k)
           (purgeKey (settleCancel st k).1 k).animations).2 ++
         [Effect.setStateChildren
           (cancelSweep (purgeKey (settleCancel st k).1 k)
             (purgeKey (settleCancel st k).1 k).animations).1.children]) := by
  unfold settle
  rw [if_pos (by rw [settleCancel_leaving]; exact hk),
      if_pos (by simp only [purgeKey, settleCancel_leaving]; exact he)]

theorem settle_children_subset (st : AGState) (k : String) :
    (settle st k).1.children ⊆ st.children := by
  unfold settle
  split
  · split
    · rw [cancelSweep_children]
      simp only [purgeKey, settleCancel_children]
      exact List.erase_subset _ _
    · simp only [purgeKey, settleCancel_children]
      exact List.erase_subset _ _
  · rw [settleCancel_children]
    exact fun x hx => hx

theorem settleAll_children_subset (ks : List String) : ∀ st : AGState,
    (settleAll st ks).1.children ⊆ st.children := by
  induction ks with
  | nil => intro st x hx; exact hx
  | cons a as ih =>
    intro st x hx
    exact settle_children_subset st a (ih (settle st a).1 hx)

theorem nodup_singleton_of_iff (l : List String) (k : String)
    (hnd : l.Nodup) (hiff : ∀ x, x ∈ l ↔ x = k) : l = [k] := by
  cases l with
  | nil => exact absurd ((hiff k).mpr rfl) (List.not_mem_nil k)
  | cons a rest =>
    obtain ⟨ha, -⟩ := List.nodup_cons.mp hnd
    have hak : a = k := (hiff a).mp (List.mem_cons_self a rest)
    subst hak
    have hrest : rest = [] := by
      cases rest with
      | nil => rfl
      | cons b rb =>
        have hb : b = a :=
          (hiff b).mp (List.mem_cons_of_mem _ (List.mem_cons_self b rb))
        exact absurd (hb ▸ List.mem_cons_self b rb) ha
    rw [hrest]

/-- C4: when the `transitionend` handlers of all outstanding leaving
keys of a batch fire (each once, in any order), then after the last
one: the registry is empty and every animation registered at the start
of the batch got its cancel invoked, no leaving key of the batch is
left in the children mapping, and exactly one forced `setState` of the
children mapping happened. -/
theorem C4_last_leaving_settles : ∀ (ks : List String) (st : AGState),
    ks.Nodup → st.leavingKeys.Nodup → st.children.Nodup →
    (∀ k, k ∈ ks ↔ k ∈ st.leavingKeys) → ks ≠ [] →
    (settleAll st ks).1.animations = [] ∧
    (settleAll st ks).1.leavingKeys = [] ∧
    (∀ k ∈ st.leavingKeys, k ∉ (settleAll st ks).1.children) ∧
    countSetState (settleAll st ks).2 = 1 ∧
    (∀ k ∈ st.animations,
      Effect.cancelInvoked k ∈ (settleAll st ks).2) := by
  intro ks
  induction ks with
  | nil => intro st _ _ _ _ hne; exact absurd rfl hne
  | cons k rest ih =>
    intro st hknd hlnd hcnd hiff _
    obtain ⟨hkrest, hrestnd⟩ := List.nodup_cons.mp hknd
    have hkl : k ∈ st.leavingKeys := (hiff k).mp (List.mem_cons_self k rest)
    by_cases hrest : rest = []
    · subst hrest
      have hl1 : st.leavingKeys = [k] :=
        nodup_singleton_of_iff st.leavingKeys k hlnd (fun x =>
          ⟨fun hx => by simpa using (hiff x).mpr hx, fun hx => hx ▸ hkl⟩)
      have herase : st.leavingKeys.erase k = [] := by
        rw [hl1, List.erase_cons_head]
      have hs := settle_last st k hkl herase
      simp only [settleAll, List.append_nil]
      rw [hs]
      refine ⟨?_, ?_, ?_, ?_, ?_⟩
      · exact cancelSweep_self_empties _ _ rfl
      · rw [cancelSweep_leaving]
        simp only [purgeKey, settleCancel_leaving]
        exact herase
      · intro x hx
        rw [hl1] at hx
        have hxk : x = k := by simpa using hx
        subst hxk
        rw [cancelSweep_children]
        simp only [purgeKey, settleCancel_children]
        intro hmem
        exact absurd ((hcnd.mem_erase_iff).mp hmem).1 (by simp)
      · simp only [countSetState_append, settleCancel_count,
          countSetState_cancelSweep]
        rfl
      · intro x hx
        by_cases hxk : x = k
        · subst hxk
          simp only [List.mem_append]
          exact Or.inl (Or.inl (settleCancel_mem st x hx))
        · have hx' : x ∈ (purgeKey (settleCancel st k).1 k).animations := by
            simp only [purgeKey, settleCancel_animations]
            exact (List.mem_erase_of_ne hxk).mpr hx
          simp only [List.mem_append]
          exact Or.inl (Or.inr (cancelSweep_trace_mem _ _ _ hx'))
    · obtain ⟨b, hb⟩ := List.exists_mem_of_ne_nil rest hrest
      have hbk : b ≠ k := fun h => hkrest (h ▸ hb)
      have hbl : b ∈ st.leavingKeys :=
        (hiff b).mp (List.mem_cons_of_mem _ hb)
      have herase : st.leavingKeys.erase k ≠ [] := by
        intro h
        have : b ∈ st.leavingKeys.erase k :=
          (hlnd.mem_erase_iff).mpr ⟨hbk, hbl⟩
        rw [h] at this
        exact List.not_mem_nil b this
      have hs := settle_not_last st k hkl herase
      have hst1l : (settle st k).1.leavingKeys = st.leavingKeys.erase k := by
        rw [hs]; simp only [purgeKey, settleCancel_leaving]
      have hst1c : (settle st k).1.children = st.children.erase k := by
        rw [hs]; simp only [purgeKey, settleCancel_children]
      have hst1a : (settle st k).1.animations = st.animations.erase k := by
        rw [hs]; simp only [purgeKey, settleCancel_animations]
      have hiff' : ∀ x, x ∈ rest ↔ x ∈ (settle st k).1.leavingKeys := by
        intro x
        rw [hst1l]
        constructor
        · intro hx
          have hxk : x ≠ k := fun h => hkrest (h ▸ hx)
          exact (hlnd.mem_erase_iff).mpr
            ⟨hxk, (hiff x).mp (List.mem_cons_of_mem _ hx)⟩
        · intro hx
          obtain ⟨hxk, hxl⟩ := (hlnd.mem_erase_iff).mp hx
          rcases List.mem_cons.mp ((hiff x).mpr hxl) with h | h
          · exact absurd h hxk
          · exact h
      have hI := ih (settle st k).1 hrestnd
        (by rw [hst1l]; exact hlnd.erase k)
        (by rw [hst1c]; exact hcnd.erase k) hiff' hrest
      simp only [settleAll]
      refine ⟨hI.1, hI.2.1, ?_, ?_, ?_⟩
      · intro x hx
        by_cases hxk : x = k
        · subst hxk
          intro hmem
          have hmem' := settleAll_children_subset rest (settle st x).1 hmem
          rw [hst1c] at hmem'
          exact absurd ((hcnd.mem_erase_iff).mp hmem').1 (by simp)
        · exact hI.2.2.1 x (hst1l ▸ (hlnd.mem_erase_iff).mpr ⟨hxk, hx⟩)
      · rw [countSetState_append, hI.2.2.2.1]
        rw [hs]
        simp [settleCancel_count]
      · intro x hx
        simp only [List.mem_append]
        by_cases hxk : x = k
        · subst hxk
          rw [hs]
          exact Or.inl (settleCancel_mem st x hx)
        · refine Or.inr (hI.2.2.2.2 x ?_)
          rw [hst1a]
          exact (List.mem_erase_of_ne hxk).mpr hx

/-- Concrete state for the C4 witness: keys `a` (staying, animated) and
`b` (leaving, animated), `b` being the only leaving key. -/
def settleState : AGState :=
  { children := ["a", "b"], leavingKeys := ["b"],
    animations := ["a", "b"], domNodes := fun _ => true,
    styles := fun _ => ⟨"", "", ""⟩, starting := fun _ => none,
    real := fun _ => none, ending := fun _ => none }

/-- Witness for C4: settling the batch `["b"]` empties the registry,
drops `b` from the children, cancels the unrelated in-flight animation
of `a`, and issues exactly one forced re-render. -/
theorem C4_last_leaving_settles_witness :
    (settleAll settleState ["b"]).1.animations = [] ∧
    "b" ∉ (settleAll settleState ["b"]).1.children ∧
    Effect.cancelInvoked "a" ∈ (settleAll settleState ["b"]).2 ∧
    countSetState (settleAll settleState ["b"]).2 = 1 := by
  have h := C4_last_leaving_settles ["b"] settleState (by decide)
    (by decide) (by decide) (fun k => Iff.rfl) (by decide)
  exact ⟨h.1, h.2.2.1 "b" (by decide), h.2.2.2.2 "a" (by decide),
    h.2.2.2.1⟩

/-- C9: a post-update pass whose previous props are reference-identical
to the current props (as in the forced re-render after the last leaving
key is purged) returns immediately: the state — snapshot mappings and
the active-animations registry included — is unchanged, no effect is
emitted, and no animation is planned. -/
theorem C9_same_props_noop (env : Env) (st : AGState) :
    didUpdate env true st = ⟨st, [], []⟩ := rfl

/-- A child element of the mapping: `id` stands for the element's
reference identity (used by the `factoryChild === child` comparison),
`refIsString` is `typeof child.ref === 'string'`. -/
structure Child where
  id : Nat
  refIsString : Bool
  deriving DecidableEq, Repr

/-- One entry of the rendered children array: the key, the
factory-wrapped element, and whether the owner's callback ref was
chained with the component's own tracking ref. -/
structure RenderedChild where
  key : String
  elem : Child
  refChained : Bool
  deriving DecidableEq, Repr

/-- The wrapping element produced by `render`: its element type, its
forwarded props, the keys warned about, and the children array. -/
structure RenderResult where
  componentType : String
  forwardedProps : List (String × Nat)
  warnings : List String
  children : List RenderedChild
  deriving DecidableEq, Repr

/-- The internal-only configuration options deleted from the forwarded
props (lines 224-232). -/
def internalOptionKeys : List String :=
  ["transitionLeave", "transitionName", "transitionAppear",
   "transitionEnter", "childFactory", "transitionLeaveTimeout",
   "transitionEnterTimeout", "transitionAppearTimeout", "component"]

/-- `Object.assign({}, this.props)` followed by the nine `delete`
statements (lines 223-232); prop values are opaque. -/
def stripProps (props : List (String × Nat)) : List (String × Nat) :=
  props.filter (fun p => !(decide (p.1 ∈ internalOptionKeys)))

/-- One child of the render loop (lines 188-218): the factory-wrapped
element, with the owner's ref chained only when the factory returned
the identical element and the ref is a callback. -/
def renderOne (factory : Child → Child) (key : String) (c : Child) :
    RenderedChild :=
  ⟨key, factory c, decide (factory c = c) && !c.refIsString⟩

/-- The rendered children array: falsy mapping entries are skipped
(line 188), the rest are cloned with their key. -/
def renderChildren (factory : Child → Child)
    (stateChildren : List (String × Option Child)) : List RenderedChild :=
  stateChildren.filterMap (fun p => p.2.map (renderOne factory p.1))

/-- The keys for which `warning(isCallbackRef, ...)` fires (line 195):
rendered children whose ref is a string. -/
def renderWarnings (stateChildren : List (String × Option Child)) :
    List String :=
  stateChildren.filterMap (fun p =>
    match p.2 with
    | some c => if c.refIsString then some p.1 else none
    | none => none)

/-- `render` (lines 184-238): one wrapping element of the configured
component type, carrying the stripped props and the merged
factory-wrapped keyed children. -/
def render (factory : Child → Child) (component : String)
    (props : List (String × Nat))
    (stateChildren : List (String × Option Child)) : RenderResult :=
  ⟨component, stripProps props, renderWarnings stateChildren,
   renderChildren factory stateChildren⟩

/-- C7: a child with a string ref is warned about (non-fatally: render
still produces an entry for it), and its tracking degrades silently —
the owner's string ref is never chained with the component's own
tracking ref. -/
theorem C7_string_ref_degrades (factory : Child → Child)
    (component : String) (props : List (String × Nat))
    (sc : List (String × Option Child)) (key : String) (c : Child)
    (hmem : (key, some c) ∈ sc) (hstr : c.refIsString = true) :
    key ∈ (render factory component props sc).warnings ∧
    (⟨key, factory c, false⟩ : RenderedChild) ∈
      (render factory component props sc).children := by
  constructor
  · show key ∈ renderWarnings sc
    rw [renderWarnings, List.mem_filterMap]
    exact ⟨(key, some c), hmem, by simp [hstr]⟩
  · show _ ∈ renderChildren factory sc
    rw [renderChildren, List.mem_filterMap]
    refine ⟨(key, some c), hmem, ?_⟩
    simp [renderOne, hstr]

/-- Witness for C7: the identity factory and one child with a string
ref under key `"x"`. -/
theorem C7_string_ref_degrades_witness :
    "x" ∈ (render (fun c => c) "div" [] [("x", some ⟨1, true⟩)]).warnings ∧
    (⟨"x", ⟨1, true⟩, false⟩ : RenderedChild) ∈
      (render (fun c => c) "div" [] [("x", some ⟨1, true⟩)]).children :=
  C7_string_ref_degrades (fun c => c) "div" [] [("x", some ⟨1, true⟩)]
    "x" ⟨1, true⟩ (by decide) (by decide)

/-- C8: the forwarded props contain none of the internal-only
configuration options, and are exactly the component's props minus
those keys; the wrapping element has the configured component type and
the merged factory-wrapped keyed children. -/
theorem C8_internal_props_stripped (factory : Child → Child)
    (component : String) (props : List (String × Nat))
    (sc : List (String × Option Child)) :
    (∀ k ∈ internalOptionKeys, ∀ v,
      (k, v) ∉ (render factory component props sc).forwardedProps) ∧
    (∀ k v, (k, v) ∈ props → k ∉ internalOptionKeys →
      (k, v) ∈ (render factory component props sc).forwardedProps) ∧
    (∀ k v, (k, v) ∈ (render factory component props sc).forwardedProps →
      (k, v) ∈ props) ∧
    (render factory component props sc).componentType = component ∧
    (render factory component props sc).children =
      renderChildren factory sc := by
  refine ⟨?_, ?_, ?_, rfl, rfl⟩
  · intro k hk v hmem
    have := List.mem_filter.mp hmem
    simp only [Bool.not_eq_true', decide_eq_false_iff_not] at this
    exact this.2 hk
  · intro k v hmem hk
    exact List.mem_filter.mpr ⟨hmem, by
      simp only [Bool.not_eq_true', decide_eq_false_iff_not]
      exact hk⟩
  · intro k v hmem
    exact (List.mem_filter.mp hmem).1

/-- Witness for C8: `component` is stripped, `className` forwarded. -/
theorem C8_internal_props_stripped_witness :
    ("component", 2) ∉ (render (fun c => c) "div"
      [("className", 1), ("component", 2)] []).forwardedProps ∧
    ("className", 1) ∈ (render (fun c => c) "div"
      [("className", 1), ("component", 2)] []).forwardedProps := by
  have h := C8_internal_props_stripped (fun c => c) "div"
    [("className", 1), ("component", 2)] []
  exact ⟨h.1 "component" (by decide) 2,
    h.2.1 "className" 1 (by decide) (by decide)⟩

/-- The instance state after the constructor and `componentWillMount`
(lines 24-39): the registries and snapshot mappings are fresh and empty
and — decisive for C10 — the merged mapping field `this.children` has
not been assigned yet (it is assigned only in
`componentWillReceiveProps`); `for..in` over `undefined` iterates zero
times, so the unassigned field behaves exactly like the empty
mapping.  `s0` is whatever inline styles the DOM nodes already have. -/
def initialMountState (s0 : String → Styles) : AGState :=
  { children := [], leavingKeys := [], animations := [],
    domNodes := fun _ => false, styles := s0,
    starting := fun _ => none, real := fun _ => none,
    ending := fun _ => none }

/-- `componentDidMount` (lines 42-44): only `this.updateDomNodes()`. -/
def didMount (env : Env) (st : AGState) : AGState × List Effect :=
  ({ st with domNodes := refreshedNodes env st }, [])

/-- C10 counterexample: on initial mount, node references are NOT
resolved, contrary to the claim — `updateDomNodes` iterates the
still-unassigned merged mapping.  Concretely, with a child `"a"` whose
node is resolvable, after `componentDidMount` the node registry still
has no node for `"a"`. -/
theorem C10_mount_counterexample :
    (⟨fun _ => true, fun _ _ => emptyRect⟩ : Env).resolveNode "a" = true ∧
    (didMount ⟨fun _ => true, fun _ _ => emptyRect⟩
      (initialMountState (fun _ => ⟨"", "", ""⟩))).1.domNodes "a" =
        false := by
  decide

/-- C10 amended: on initial mount nothing is captured or mutated at
all — not even node references are resolved, since `this.children` is
assigned only on the first props update: no starting/real/ending
snapshot, no animation registered, no style written, no effect
emitted.  Children of the very first render therefore appear in place
without a slide-in animation. -/
theorem C10_mount_inert (env : Env) (s0 : String → Styles) (k : String) :
    (didMount env (initialMountState s0)).2 = [] ∧
    (didMount env (initialMountState s0)).1.domNodes k = false ∧
    (didMount env (initialMountState s0)).1.animations = [] ∧
    (didMount env (initialMountState s0)).1.starting k = none ∧
    (didMount env (initialMountState s0)).1.real k = none ∧
    (didMount env (initialMountState s0)).1.ending k = none ∧
    (didMount env (initialMountState s0)).1.styles k = s0 k := by
  refine ⟨rfl, ?_, rfl, rfl, rfl, rfl, rfl⟩
  show refreshedNodes env (initialMountState s0) k = false
  unfold refreshedNodes initialMountState
  simp

end AnimationGroup
